import Mathlib

/-!
Verification of the BrainBrowser event-model mixin
(`src/brainbrowser/lib/events.js`).

The JavaScript module attaches, to every object given the event model, two
private registries:

* `event_listeners` : map from event name to an ordered list of callbacks;
* `propagated_events` : map from event name to an ordered list of target
  objects.

Objects are identified here by natural numbers (`ObjId`), standing for
JavaScript object identity (the `===` checks of the source).  A `World`
collects the registries of every object carrying the event model together
with the identity of the process-wide root node (`BrainBrowser.events`).

Handlers are modelled as either abstract user callbacks (`Handler.user`) or
the internal cleanup closure registered by `propagateEventTo`
(`Handler.cleanup source target`), whose behaviour
(`if (this === other) object.stopPropagatingTo(other)`) is interpreted by
`runHandler`.  `triggerEvent` threads the world state (cleanup handlers
mutate it) and records a trace of dispatches and handler invocations.

Recursive walks of the propagation graph (`allPropagationTargets`,
`triggerEvent`) are given explicit fuel; the JavaScript originals recurse
without bound and terminate exactly on the acyclic graphs they are run on,
where a large enough fuel computes the same answer.
-/

abbrev ObjId := Nat

/-- JavaScript values passed as event arguments (only the shapes the spec
exercises: strings and numbers). -/
inductive JSVal
  | str : String → JSVal
  | num : Int → JSVal
deriving DecidableEq, Repr

/-- An event handler: either an abstract user callback, or the cleanup
closure that `propagateEventTo` registers on a target
(`source.stopPropagatingTo(target)` guarded by `this === target`). -/
inductive Handler
  | user : Nat → Handler
  | cleanup : ObjId → ObjId → Handler
deriving DecidableEq, Repr

/-- The two private registries of one object carrying the event model. -/
structure ObjState where
  event_listeners : List (String × List Handler)
  propagated_events : List (String × List ObjId)
deriving DecidableEq, Repr

/-- The errors thrown by `propagateEventTo`. -/
inductive EventError
  | missingCapability
  | cycle
deriving DecidableEq, Repr

/-- The state of every object carrying the event model, plus the identity
of the process-wide root node `BrainBrowser.events`. -/
structure World where
  root : ObjId
  objs : List (ObjId × ObjState)
deriving DecidableEq, Repr

/-- Observable events of a dispatch: entry into `triggerEvent` on an
object, and the invocation of one callback with its argument list. -/
inductive TraceEntry
  | dispatch : ObjId → ObjId → String → List JSVal → TraceEntry
  | invoke : Handler → ObjId → List JSVal → TraceEntry
deriving DecidableEq, Repr

/-- Association-list lookup by key (JavaScript object property read). -/
def alookup {α β : Type} [DecidableEq α] (k : α) : List (α × β) → Option β
  | [] => none
  | p :: rest => if p.1 = k then some p.2 else alookup k rest

/-- Replace the value stored under the first occurrence of a key
(JavaScript object property write); no effect if the key is absent. -/
def replaceFirst {α β : Type} [DecidableEq α] (l : List (α × β)) (k : α) (v : β) :
    List (α × β) :=
  match l with
  | [] => []
  | p :: rest => if p.1 = k then (k, v) :: rest else p :: replaceFirst rest k v

def emptyState : ObjState := ⟨[], []⟩

/-- Whether an object carries the event model
(`BrainBrowser.utils.isFunction(other.allPropagationTargets)`). -/
def hasModel (w : World) (o : ObjId) : Bool := (alookup o w.objs).isSome

/-- The registries of an object (empty registries for objects outside the
world; such objects are never reached by the modelled operations). -/
def getObj (w : World) (o : ObjId) : ObjState := (alookup o w.objs).getD emptyState

def setObj (w : World) (o : ObjId) (s : ObjState) : World :=
  { w with objs := replaceFirst w.objs o s }

/-- `event_listeners[event_name] || []`. -/
def getListeners (s : ObjState) (e : String) : List Handler :=
  (alookup e s.event_listeners).getD []

/-- `object.addEventListener(event_name, callback)` (events.js:69-75):
create the list if absent, then push the callback. -/
def addEventListener (s : ObjState) (event_name : String) (callback : Handler) :
    ObjState :=
  if (alookup event_name s.event_listeners).isNone then
    { s with event_listeners := s.event_listeners ++ [(event_name, [callback])] }
  else
    let pushed :=
      s.event_listeners.map
        (fun p => if p.1 = event_name then (p.1, p.2 ++ [callback]) else p)
    { s with event_listeners := pushed }

/-- `object.stopPropagatingTo(other)` (events.js:208-212): filter `other`
out of every event name's target list. -/
def stopPropagatingTo (s : ObjState) (other : ObjId) : ObjState :=
  let filtered :=
    s.propagated_events.map
      (fun p => (p.1, p.2.filter (fun target => target ≠ other)))
  { s with propagated_events := filtered }

/-- `if (indexOf === -1) push` accumulation used by the target queries. -/
def pushUnique (acc : List ObjId) (x : ObjId) : List ObjId :=
  if x ∈ acc then acc else acc ++ [x]

/-- `object.directPropagationTargets(event_name)` (events.js:229-243):
de-duplicated union of the targets under the literal name and `"*"`; with
no argument, the union over every registered event name. -/
def directPropagationTargets (s : ObjState) (e? : Option String) : List ObjId :=
  let event_names :=
    match e? with
    | none => s.propagated_events.map Prod.fst
    | some e => [e, ("*")]
  event_names.foldl
    (fun acc en => ((alookup en s.propagated_events).getD []).foldl pushUnique acc)
    []

/-- `object.allPropagationTargets(event_name)` (events.js:261-274):
transitive closure of `directPropagationTargets`, direct targets first,
de-duplicated; fueled (the source recurses without bound). -/
def allPropagationTargets : Nat → World → ObjId → Option String → List ObjId
  | 0, _, _, _ => []
  | fuel + 1, w, oid, e? =>
    (directPropagationTargets (getObj w oid) e?).foldl
      (fun acc target => (allPropagationTargets fuel w target e?).foldl pushUnique acc)
      (directPropagationTargets (getObj w oid) e?)

/-- `propagated_events[event_name] = propagated_events[event_name] || []`
(events.js:151): create the target list for `event_name` if absent. -/
def propKeyEnsure (s : ObjState) (event_name : String) : ObjState :=
  if (alookup event_name s.propagated_events).isNone then
    { s with propagated_events := s.propagated_events ++ [(event_name, [])] }
  else s

/-- `if (indexOf(other) === -1) propagated_events[event_name].push(other)`
(events.js:161-163). -/
def propPush (s : ObjState) (event_name : String) (other : ObjId) : ObjState :=
  if other ∈ (alookup event_name s.propagated_events).getD [] then s
  else
    let pushed :=
      s.propagated_events.map
        (fun p => if p.1 = event_name then (p.1, p.2 ++ [other]) else p)
    { s with propagated_events := pushed }

/-- The state change performed by a successful `propagateEventTo` call
(events.js:151-163): create the target list for `event_name` if absent;
if this is the first edge to `other` (checked over all event names),
register the cleanup listener on `other`; finally push `other` if not
already present under `event_name`. -/
def applyPropagate (w : World) (objId : ObjId) (event_name : String) (other : ObjId) :
    World :=
  let s1 := propKeyEnsure (getObj w objId) event_name
  let w1 := setObj w objId s1
  let w2 :=
    if other ∈ directPropagationTargets s1 none then w1
    else
      setObj w1 other
        (addEventListener (getObj w1 other) ("eventmodelcleanup")
          (Handler.cleanup objId other))
  setObj w2 objId (propPush (getObj w2 objId) event_name other)

/-- `object.propagateEventTo(event_name, other)` (events.js:142-165):
fail if `other` lacks the event model; fail with a cycle error if the
caller is the root node or already appears among `other`'s transitive
targets for `event_name`; otherwise record the edge. -/
def propagateEventTo (fuel : Nat) (w : World) (objId : ObjId) (event_name : String)
    (other : ObjId) : Except EventError World :=
  if hasModel w other = false then Except.error EventError.missingCapability
  else if objId = w.root ∨ objId ∈ allPropagationTargets fuel w other (some event_name)
    then Except.error EventError.cycle
  else Except.ok (applyPropagate w objId event_name other)

/-- `object.propagateEventFrom(event_name, other)` (events.js:192-194). -/
def propagateEventFrom (fuel : Nat) (w : World) (objId : ObjId) (event_name : String)
    (other : ObjId) : Except EventError World :=
  propagateEventTo fuel w other event_name objId

/-- Run one callback for its state effect: user callbacks are pure; the
cleanup closure removes all of `source`'s edges to `target` when invoked
with `this === target`. -/
def runHandler (w : World) (ctx : ObjId) (h : Handler) : World :=
  match h with
  | Handler.user _ => w
  | Handler.cleanup source target =>
    if ctx = target then setObj w source (stopPropagatingTo (getObj w source) target)
    else w

/-- One unfolding of `object.triggerEvent` (events.js:90-115), with
`recur` standing for the recursive calls: run the listeners for the
literal name with the extra arguments, then the `"*"` listeners with the
event name prepended, then re-trigger on every direct propagation target,
and finally, if there was no direct target and the object is not the root
node, trigger on the root node — all with the original `this` (`ctx`). -/
def triggerBody
    (recur : World → ObjId → ObjId → String → List JSVal → World × List TraceEntry)
    (w : World) (objId ctx : ObjId) (event_name : String) (args : List JSVal) :
    World × List TraceEntry :=
  let s := getObj w objId
  let full_args := JSVal.str event_name :: args
  let propagate_to := directPropagationTargets s (some event_name)
  let named := getListeners s event_name
  let wild := getListeners s ("*")
  let w1 := named.foldl (fun acc h => runHandler acc ctx h) w
  let w2 := wild.foldl (fun acc h => runHandler acc ctx h) w1
  let p := propagate_to.foldl
    (fun acc other =>
      ((recur acc.1 other ctx event_name args).1,
        acc.2 ++ (recur acc.1 other ctx event_name args).2))
    (w2, ([] : List TraceEntry))
  let base := TraceEntry.dispatch objId ctx event_name args ::
    (named.map (fun h => TraceEntry.invoke h ctx args) ++
      (wild.map (fun h => TraceEntry.invoke h ctx full_args) ++ p.2))
  if propagate_to = [] ∧ objId ≠ w.root then
    ((recur p.1 w.root ctx event_name args).1,
      base ++ (recur p.1 w.root ctx event_name args).2)
  else
    (p.1, base)

/-- `object.triggerEvent(event_name, ...args)` with fuel bounding the
depth of propagation. -/
def triggerEvent : Nat → World → ObjId → ObjId → String → List JSVal →
    World × List TraceEntry
  | 0, w, _, _, _, _ => (w, [])
  | fuel + 1, w, objId, ctx, event_name, args =>
    triggerBody (triggerEvent fuel) w objId ctx event_name args

theorem triggerEvent_succ (fuel : Nat) (w : World) (objId ctx : ObjId)
    (event_name : String) (args : List JSVal) :
    triggerEvent (fuel + 1) w objId ctx event_name args =
      triggerBody (triggerEvent fuel) w objId ctx event_name args := rfl

/-- A user (non-cleanup) handler. -/
def Handler.isUser : Handler → Bool
  | Handler.user _ => true
  | Handler.cleanup _ _ => false

/-- A world whose registered listeners are all user callbacks; dispatch in
such a world never mutates the registries. -/
def pureWorld (w : World) : Bool :=
  w.objs.all (fun p => p.2.event_listeners.all (fun q => q.2.all Handler.isUser))

def exceptIsOk {ε α : Type} : Except ε α → Bool
  | Except.ok _ => true
  | Except.error _ => false

def exceptGetD {ε α : Type} : Except ε α → α → α
  | Except.ok a, _ => a
  | Except.error _, d => d

/-- Two objects besides nothing: the root node (0) and one fresh object. -/
def twoObjWorld : World := ⟨0, [(0, emptyState), (1, emptyState)]⟩

/-- The root node (0) and two fresh objects. -/
def threeObjWorld : World := ⟨0, [(0, emptyState), (1, emptyState), (2, emptyState)]⟩

/-! ### Association-list lemmas -/

theorem alookup_mem {α β : Type} [DecidableEq α] {k : α} {v : β} :
    ∀ {l : List (α × β)}, alookup k l = some v → (k, v) ∈ l := by
  intro l
  induction l with
  | nil => intro h; simp [alookup] at h
  | cons p rest ih =>
    intro h
    simp only [alookup] at h
    by_cases hp : p.1 = k
    · rw [if_pos hp] at h
      have hv : p.2 = v := by injection h
      have hpkv : p = (k, v) := by cases p; simp_all
      rw [← hpkv]
      exact List.mem_cons_self _ _
    · rw [if_neg hp] at h
      exact List.mem_cons_of_mem _ (ih h)

theorem alookup_append_ne {α β : Type} [DecidableEq α] {k k' : α} (h : k' ≠ k)
    (v : β) : ∀ (l : List (α × β)), alookup k (l ++ [(k', v)]) = alookup k l := by
  intro l
  induction l with
  | nil => simp [alookup, h]
  | cons p rest ih => simp [alookup, ih]

theorem alookup_append_self {α β : Type} [DecidableEq α] {k : α} (v : β)
    {l : List (α × β)} (h : alookup k l = none) :
    alookup k (l ++ [(k, v)]) = some v := by
  induction l with
  | nil => simp [alookup]
  | cons p rest ih =>
    simp only [alookup] at h ⊢
    by_cases hp : p.1 = k
    · rw [if_pos hp] at h; cases h
    · rw [if_neg hp] at h ⊢
      exact ih h

theorem alookup_push_map {β : Type} (k E : String) (x : β)
    (l : List (String × List β)) :
    alookup k (l.map (fun p => if p.1 = E then (p.1, p.2 ++ [x]) else p)) =
      if k = E then (alookup k l).map (fun v => v ++ [x]) else alookup k l := by
  induction l with
  | nil => by_cases h : k = E <;> simp [alookup, h]
  | cons p rest ih =>
    simp only [List.map_cons, alookup]
    by_cases hp : p.1 = E
    · rw [if_pos hp]
      by_cases hk : p.1 = k
      · have hkE : k = E := hk ▸ hp
        simp [alookup, hk, hkE]
      · have : ¬ k = E := fun hc => hk (hc ▸ hp)
        simp only [alookup, if_neg hk, ih, if_neg this]
    · rw [if_neg hp]
      by_cases hk : p.1 = k
      · have : ¬ k = E := fun hc => hp (hk.trans hc)
        simp [alookup, hk, this]
      · simp only [alookup, if_neg hk, ih]

theorem alookup_replaceFirst {α β : Type} [DecidableEq α] (k : α) (v : β)
    (k' : α) : ∀ (l : List (α × β)),
    alookup k' (replaceFirst l k v) =
      if k' = k then (alookup k l).map (fun _ => v) else alookup k' l := by
  intro l
  induction l with
  | nil => by_cases h : k' = k <;> simp [replaceFirst, alookup, h]
  | cons p rest ih =>
    by_cases hp : p.1 = k
    · by_cases hk : k' = k
      · subst hk
        simp [replaceFirst, alookup, hp]
      · have hkk : ¬ k = k' := fun hc => hk hc.symm
        simp [replaceFirst, alookup, hp, hk, hkk,
          fun hc : p.1 = k' => hk (hc.symm.trans hp)]
    · by_cases hk : k' = k
      · subst hk
        simp [replaceFirst, alookup, hp, ih]
      · simp [replaceFirst, alookup, hp, hk, ih]

theorem replaceFirst_of_none {α β : Type} [DecidableEq α] {k : α} (v : β) :
    ∀ {l : List (α × β)}, alookup k l = none → replaceFirst l k v = l := by
  intro l
  induction l with
  | nil => intro _; rfl
  | cons p rest ih =>
    intro h
    simp only [alookup] at h
    by_cases hp : p.1 = k
    · rw [if_pos hp] at h; cases h
    · rw [if_neg hp] at h
      simp only [replaceFirst, if_neg hp, ih h]

theorem replaceFirst_same {α β : Type} [DecidableEq α] {k : α} {d : β} :
    ∀ {l : List (α × β)}, (alookup k l).isSome = true →
      replaceFirst l k ((alookup k l).getD d) = l := by
  intro l
  induction l with
  | nil => intro h; simp [alookup] at h
  | cons p rest ih =>
    intro h
    by_cases hp : p.1 = k
    · have h1 : alookup k (p :: rest) = some p.2 := by simp [alookup, hp]
      rw [h1]
      simp only [replaceFirst, if_pos hp, Option.getD_some]
      have hpk : (k, p.2) = p := by cases p; simp_all
      rw [hpk]
    · have h1 : alookup k (p :: rest) = alookup k rest := by simp [alookup, hp]
      rw [h1] at h ⊢
      simp only [replaceFirst, if_neg hp, ih h]

theorem mem_keys_of_alookup_isSome {α β : Type} [DecidableEq α] {k : α} :
    ∀ {l : List (α × β)}, (alookup k l).isSome = true → k ∈ l.map Prod.fst := by
  intro l
  induction l with
  | nil => intro h; simp [alookup] at h
  | cons p rest ih =>
    intro h
    simp only [alookup] at h
    by_cases hp : p.1 = k
    · simp [hp]
    · rw [if_neg hp] at h
      simp [ih h]

/-! ### Membership in the de-duplicating accumulations -/

theorem mem_pushUnique {acc : List ObjId} {x y : ObjId} :
    x ∈ pushUnique acc y ↔ x ∈ acc ∨ x = y := by
  unfold pushUnique
  by_cases h : y ∈ acc
  · rw [if_pos h]
    constructor
    · exact Or.inl
    · rintro (hx | rfl)
      · exact hx
      · exact h
  · rw [if_neg h]
    simp

theorem mem_foldl_pushUnique {x : ObjId} :
    ∀ (l : List ObjId) (acc : List ObjId),
      x ∈ l.foldl pushUnique acc ↔ x ∈ acc ∨ x ∈ l := by
  intro l
  induction l with
  | nil => simp
  | cons a rest ih =>
    intro acc
    simp only [List.foldl_cons, ih, mem_pushUnique, List.mem_cons]
    tauto

theorem mem_foldl_pushUnique_lists {α : Type} (g : α → List ObjId) {x : ObjId} :
    ∀ (ts : List α) (acc : List ObjId),
      x ∈ ts.foldl (fun acc t => (g t).foldl pushUnique acc) acc ↔
        x ∈ acc ∨ ∃ t ∈ ts, x ∈ g t := by
  intro ts
  induction ts with
  | nil => simp
  | cons a rest ih =>
    intro acc
    simp only [List.foldl_cons, ih, mem_foldl_pushUnique, List.mem_cons]
    constructor
    · rintro ((hx | hx) | ⟨t, ht, hx⟩)
      · exact Or.inl hx
      · exact Or.inr ⟨a, Or.inl rfl, hx⟩
      · exact Or.inr ⟨t, Or.inr ht, hx⟩
    · rintro (hx | ⟨t, (rfl | ht), hx⟩)
      · exact Or.inl (Or.inl hx)
      · exact Or.inl (Or.inr hx)
      · exact Or.inr ⟨t, ht, hx⟩

theorem mem_directPropagationTargets_some {s : ObjState} {e : String} {x : ObjId} :
    x ∈ directPropagationTargets s (some e) ↔
      x ∈ (alookup e s.propagated_events).getD [] ∨
        x ∈ (alookup ("*") s.propagated_events).getD [] := by
  unfold directPropagationTargets
  rw [mem_foldl_pushUnique_lists (fun en => (alookup en s.propagated_events).getD [])]
  simp

theorem mem_directPropagationTargets_none {s : ObjState} {x : ObjId} :
    x ∈ directPropagationTargets s none ↔
      ∃ k ∈ s.propagated_events.map Prod.fst,
        x ∈ (alookup k s.propagated_events).getD [] := by
  unfold directPropagationTargets
  rw [mem_foldl_pushUnique_lists (fun en => (alookup en s.propagated_events).getD [])]
  simp

/-- `directPropagationTargets` reads only the propagation registry. -/
theorem directPropagationTargets_congr {s s' : ObjState}
    (h : s'.propagated_events = s.propagated_events) (e? : Option String) :
    directPropagationTargets s' e? = directPropagationTargets s e? := by
  unfold directPropagationTargets
  rw [h]

theorem directPropagationTargets_some_congr_lookup {s s' : ObjState} {e : String}
    (he : alookup e s'.propagated_events = alookup e s.propagated_events)
    (hw : alookup ("*") s'.propagated_events = alookup ("*") s.propagated_events) :
    directPropagationTargets s' (some e) = directPropagationTargets s (some e) := by
  unfold directPropagationTargets
  simp only [List.foldl_cons, List.foldl_nil, he, hw]

/-! ### World access -/

theorem root_setObj (w : World) (o : ObjId) (s : ObjState) :
    (setObj w o s).root = w.root := rfl

theorem getObj_setObj_self {w : World} {o : ObjId} (s : ObjState)
    (h : hasModel w o = true) : getObj (setObj w o s) o = s := by
  unfold getObj setObj
  rw [alookup_replaceFirst, if_pos rfl]
  unfold hasModel at h
  cases hl : alookup o w.objs with
  | none => rw [hl] at h; simp at h
  | some v => simp

theorem getObj_setObj_ne {w : World} {o o' : ObjId} (s : ObjState)
    (h : o' ≠ o) : getObj (setObj w o s) o' = getObj w o' := by
  unfold getObj setObj
  rw [alookup_replaceFirst, if_neg h]

theorem hasModel_setObj (w : World) (o : ObjId) (s : ObjState) (o' : ObjId) :
    hasModel (setObj w o s) o' = hasModel w o' := by
  unfold hasModel setObj
  rw [alookup_replaceFirst]
  by_cases h : o' = o
  · subst h
    cases hl : alookup o' w.objs <;> simp
  · rw [if_neg h]

theorem setObj_getObj_self {w : World} {o : ObjId} (h : hasModel w o = true) :
    setObj w o (getObj w o) = w := by
  unfold setObj getObj
  unfold hasModel at h
  rw [replaceFirst_same h]

/-! ### Transitive propagation targets -/

theorem mem_allPropagationTargets_succ {fuel : Nat} {w : World} {oid : ObjId}
    {e? : Option String} {x : ObjId} :
    x ∈ allPropagationTargets (fuel + 1) w oid e? ↔
      x ∈ directPropagationTargets (getObj w oid) e? ∨
        ∃ t ∈ directPropagationTargets (getObj w oid) e?,
          x ∈ allPropagationTargets fuel w t e? := by
  show x ∈ (directPropagationTargets (getObj w oid) e?).foldl _ _ ↔ _
  rw [mem_foldl_pushUnique_lists (fun t => allPropagationTargets fuel w t e?)]

theorem allPropagationTargets_zero (w : World) (oid : ObjId) (e? : Option String) :
    allPropagationTargets 0 w oid e? = [] := rfl

theorem allPropagationTargets_mono {w : World} {e? : Option String} {x : ObjId} :
    ∀ {fuel fuel' : Nat}, fuel ≤ fuel' → ∀ {oid : ObjId},
      x ∈ allPropagationTargets fuel w oid e? →
        x ∈ allPropagationTargets fuel' w oid e? := by
  intro fuel
  induction fuel with
  | zero =>
    intro fuel' _ oid h
    rw [allPropagationTargets_zero] at h
    cases h
  | succ f ih =>
    intro fuel' hle oid h
    cases fuel' with
    | zero => exact absurd hle (by omega)
    | succ f' =>
      rw [mem_allPropagationTargets_succ] at h ⊢
      rcases h with h | ⟨t, ht, hx⟩
      · exact Or.inl h
      · exact Or.inr ⟨t, ht, ih (by omega) hx⟩

theorem allPropagationTargets_congr {w w' : World} {e? : Option String}
    (h : ∀ o, directPropagationTargets (getObj w' o) e? =
      directPropagationTargets (getObj w o) e?) :
    ∀ (fuel : Nat) (oid : ObjId),
      allPropagationTargets fuel w' oid e? = allPropagationTargets fuel w oid e? := by
  intro fuel
  induction fuel with
  | zero => intro oid; rfl
  | succ f ih =>
    intro oid
    show (directPropagationTargets (getObj w' oid) e?).foldl _ _ = _
    rw [h oid]
    congr 1
    funext acc t
    rw [ih t]

theorem allPropagationTargets_nil_of_direct_nil {w : World} {oid : ObjId}
    {e? : Option String}
    (h : directPropagationTargets (getObj w oid) e? = []) (fuel : Nat) :
    allPropagationTargets fuel w oid e? = [] := by
  cases fuel with
  | zero => rfl
  | succ f =>
    show (directPropagationTargets (getObj w oid) e?).foldl _ _ = _
    rw [h]
    rfl

/-- Adding one edge `A → T` (for the queried event name) cannot make `A`
transitively reachable where it was not: any occurrence of `A` in the new
world's closure traces back to an occurrence in the old world's closure,
as long as `A` was not already reachable from `T`. -/
theorem allPropagationTargets_new_edge {w w' : World} {A T : ObjId} {e : String}
    (hAT : A ≠ T)
    (H1 : ∀ o, o ≠ A → directPropagationTargets (getObj w' o) (some e) =
      directPropagationTargets (getObj w o) (some e))
    (H2 : ∀ x, x ∈ directPropagationTargets (getObj w' A) (some e) →
      x ∈ directPropagationTargets (getObj w A) (some e) ∨ x = T)
    {F : Nat} (hF : A ∉ allPropagationTargets F w T (some e)) :
    ∀ fuel, fuel ≤ F → ∀ oid,
      A ∈ allPropagationTargets fuel w' oid (some e) →
        A ∈ allPropagationTargets fuel w oid (some e) := by
  intro fuel
  induction fuel with
  | zero =>
    intro _ oid h
    rw [allPropagationTargets_zero] at h
    cases h
  | succ f ih =>
    intro hle oid h
    rw [mem_allPropagationTargets_succ] at h ⊢
    by_cases ho : oid = A
    · subst ho
      rcases h with h | ⟨t, ht, hx⟩
      · rcases H2 _ h with h' | h'
        · exact Or.inl h'
        · exact absurd h' hAT
      · rcases H2 t ht with ht' | rfl
        · exact Or.inr ⟨t, ht', ih (by omega) t hx⟩
        · exact absurd (allPropagationTargets_mono (show f ≤ F by omega)
            (ih (by omega) t hx)) hF
    · rw [H1 oid ho] at h
      rcases h with h | ⟨t, ht, hx⟩
      · exact Or.inl h
      · exact Or.inr ⟨t, ht, ih (by omega) t hx⟩

/-! ### Effect of `propagateEventTo` on the registries -/

theorem alookup_isSome_of_mem_keys {α β : Type} [DecidableEq α] {k : α} :
    ∀ {l : List (α × β)}, k ∈ l.map Prod.fst → (alookup k l).isSome = true := by
  intro l
  induction l with
  | nil => intro h; simp at h
  | cons p rest ih =>
    intro h
    simp only [List.map_cons, List.mem_cons] at h
    simp only [alookup]
    by_cases hp : p.1 = k
    · simp [hp]
    · rw [if_neg hp]
      rcases h with h' | h'
      · exact absurd h'.symm hp
      · exact ih h'

theorem alookup_map_snd {α β γ : Type} [DecidableEq α] (g : β → γ) (k : α) :
    ∀ (l : List (α × β)),
      alookup k (l.map (fun p => (p.1, g p.2))) = (alookup k l).map g := by
  intro l
  induction l with
  | nil => rfl
  | cons p rest ih =>
    simp only [List.map_cons, alookup]
    by_cases hp : p.1 = k
    · simp [hp]
    · simp [hp, ih]

theorem listeners_propKeyEnsure (s : ObjState) (E : String) :
    (propKeyEnsure s E).event_listeners = s.event_listeners := by
  unfold propKeyEnsure
  split <;> rfl

theorem listeners_propPush (s : ObjState) (E : String) (T : ObjId) :
    (propPush s E T).event_listeners = s.event_listeners := by
  unfold propPush
  split <;> rfl

theorem prop_addEventListener (s : ObjState) (E : String) (cb : Handler) :
    (addEventListener s E cb).propagated_events = s.propagated_events := by
  unfold addEventListener
  split <;> rfl

theorem alookup_propKeyEnsure_self (s : ObjState) (E : String) :
    alookup E (propKeyEnsure s E).propagated_events =
      some ((alookup E s.propagated_events).getD []) := by
  unfold propKeyEnsure
  cases h : alookup E s.propagated_events with
  | none => simp [h, alookup_append_self _ h]
  | some v => simp [h]

theorem alookup_propKeyEnsure_ne (s : ObjState) {E k : String} (h : k ≠ E) :
    alookup k (propKeyEnsure s E).propagated_events =
      alookup k s.propagated_events := by
  unfold propKeyEnsure
  cases hE : alookup E s.propagated_events with
  | none => simp [hE, alookup_append_ne (fun hc => h hc.symm)]
  | some v => simp [hE]

theorem alookup_propPush (s : ObjState) (E : String) (T : ObjId) (k : String) :
    alookup k (propPush s E T).propagated_events =
      if k = E then (alookup E s.propagated_events).map (fun l => pushUnique l T)
      else alookup k s.propagated_events := by
  unfold propPush
  by_cases hmem : T ∈ (alookup E s.propagated_events).getD []
  · rw [if_pos hmem]
    by_cases hk : k = E
    · subst hk
      cases hE : alookup k s.propagated_events with
      | none => simp [hE] at hmem
      | some l0 =>
        rw [hE] at hmem
        simp only [hE, Option.getD_some] at hmem
        simp [hE, pushUnique, hmem]
    · rw [if_neg hk]
  · rw [if_neg hmem]
    show alookup k (s.propagated_events.map
        (fun p => if p.1 = E then (p.1, p.2 ++ [T]) else p)) = _
    rw [alookup_push_map]
    by_cases hk : k = E
    · subst hk
      rw [if_pos rfl, if_pos rfl]
      cases hE : alookup k s.propagated_events with
      | none => rfl
      | some l0 =>
        rw [hE] at hmem
        simp only [Option.getD_some] at hmem
        simp [pushUnique, hmem]
    · rw [if_neg hk, if_neg hk]

theorem mem_getListeners_addEventListener (s : ObjState) (E : String)
    (cb : Handler) : cb ∈ getListeners (addEventListener s E cb) E := by
  unfold addEventListener getListeners
  cases h : alookup E s.event_listeners with
  | none => simp [h, alookup_append_self _ h]
  | some l0 =>
    simp only [h, Option.isNone_some, Bool.false_eq_true, if_false]
    show cb ∈ (alookup E (s.event_listeners.map
        (fun p => if p.1 = E then (p.1, p.2 ++ [cb]) else p))).getD []
    rw [alookup_push_map, if_pos rfl, h]
    simp

theorem setObj_noop {w : World} {o : ObjId} (s : ObjState)
    (h : hasModel w o = false) : setObj w o s = w := by
  unfold setObj
  unfold hasModel at h
  rw [replaceFirst_of_none s (Option.not_isSome_iff_eq_none.1 (by simp [h]))]

theorem root_applyPropagate (w : World) (A : ObjId) (E : String) (T : ObjId) :
    (applyPropagate w A E T).root = w.root := by
  unfold applyPropagate
  by_cases h : T ∈ directPropagationTargets (propKeyEnsure (getObj w A) E) none <;>
    simp [h, root_setObj]

theorem hasModel_applyPropagate (w : World) (A : ObjId) (E : String) (T o : ObjId) :
    hasModel (applyPropagate w A E T) o = hasModel w o := by
  unfold applyPropagate
  by_cases h : T ∈ directPropagationTargets (propKeyEnsure (getObj w A) E) none <;>
    simp [h, hasModel_setObj]

theorem getObj_applyPropagate_ne {w : World} {A T o : ObjId} (E : String)
    (hoA : o ≠ A) (hoT : o ≠ T) :
    getObj (applyPropagate w A E T) o = getObj w o := by
  unfold applyPropagate
  by_cases h : T ∈ directPropagationTargets (propKeyEnsure (getObj w A) E) none
  · simp only [if_pos h]
    rw [getObj_setObj_ne _ hoA, getObj_setObj_ne _ hoA]
  · simp only [if_neg h]
    rw [getObj_setObj_ne _ hoA, getObj_setObj_ne _ hoT, getObj_setObj_ne _ hoA]

theorem getObj_applyPropagate_A {w : World} {A : ObjId} (E : String) (T : ObjId)
    (hA : hasModel w A = true) (hTA : T ≠ A) :
    getObj (applyPropagate w A E T) A =
      propPush (propKeyEnsure (getObj w A) E) E T := by
  unfold applyPropagate
  by_cases h : T ∈ directPropagationTargets (propKeyEnsure (getObj w A) E) none
  · simp only [if_pos h]
    rw [getObj_setObj_self _ (by rw [hasModel_setObj]; exact hA)]
    rw [getObj_setObj_self _ hA]
  · simp only [if_neg h]
    rw [getObj_setObj_self _ (by rw [hasModel_setObj, hasModel_setObj]; exact hA)]
    rw [getObj_setObj_ne _ (fun hc : A = T => hTA hc.symm)]
    rw [getObj_setObj_self _ hA]

theorem alookup_prop_applyPropagate_A {w : World} {A : ObjId} {E : String}
    {T : ObjId} (hA : hasModel w A = true) (hTA : T ≠ A) (k : String) :
    alookup k (getObj (applyPropagate w A E T) A).propagated_events =
      if k = E then
        some (pushUnique ((alookup E (getObj w A).propagated_events).getD []) T)
      else alookup k (getObj w A).propagated_events := by
  rw [getObj_applyPropagate_A E T hA hTA, alookup_propPush]
  by_cases hk : k = E
  · subst hk
    rw [if_pos rfl, if_pos rfl, alookup_propKeyEnsure_self]
    rfl
  · rw [if_neg hk, if_neg hk, alookup_propKeyEnsure_ne _ hk]

theorem prop_applyPropagate_T {w : World} {A : ObjId} (E : String) {T : ObjId}
    (hTA : T ≠ A) :
    (getObj (applyPropagate w A E T) T).propagated_events =
      (getObj w T).propagated_events := by
  unfold applyPropagate
  by_cases h : T ∈ directPropagationTargets (propKeyEnsure (getObj w A) E) none
  · simp only [if_pos h]
    rw [getObj_setObj_ne _ hTA, getObj_setObj_ne _ hTA]
  · simp only [if_neg h]
    rw [getObj_setObj_ne _ hTA]
    by_cases hT : hasModel (setObj w A (propKeyEnsure (getObj w A) E)) T = true
    · rw [getObj_setObj_self _ hT, prop_addEventListener, getObj_setObj_ne _ hTA]
    · rw [setObj_noop _ (by simpa using hT), getObj_setObj_ne _ hTA]

theorem mem_dPT_none_propKeyEnsure (s : ObjState) (E : String) (x : ObjId) :
    x ∈ directPropagationTargets (propKeyEnsure s E) none ↔
      x ∈ directPropagationTargets s none := by
  unfold propKeyEnsure
  cases hE : alookup E s.propagated_events with
  | some v => simp [hE]
  | none =>
    simp only [hE, Option.isNone_none, if_true]
    rw [mem_directPropagationTargets_none, mem_directPropagationTargets_none]
    constructor
    · rintro ⟨k, hk, hx⟩
      simp only [List.map_append, List.map_cons, List.map_nil,
        List.mem_append, List.mem_cons, List.not_mem_nil, or_false] at hk
      rcases hk with hk | hk
      · by_cases hkE : k = E
        · subst hkE
          exact absurd (alookup_isSome_of_mem_keys hk) (by simp [hE])
        · refine ⟨k, hk, ?_⟩
          rw [show alookup k ({ s with propagated_events :=
              s.propagated_events ++ [(E, [])] } : ObjState).propagated_events =
            alookup k s.propagated_events from
            alookup_append_ne (fun hc => hkE hc.symm) _ _] at hx
          exact hx
      · subst hk
        rw [show alookup k ({ s with propagated_events :=
            s.propagated_events ++ [(k, [])] } : ObjState).propagated_events =
          some [] from alookup_append_self _ hE] at hx
        simp at hx
    · rintro ⟨k, hk, hx⟩
      by_cases hkE : k = E
      · subst hkE
        exact absurd (alookup_isSome_of_mem_keys hk) (by simp [hE])
      · refine ⟨k, by simp [hk], ?_⟩
        rw [show alookup k ({ s with propagated_events :=
            s.propagated_events ++ [(E, [])] } : ObjState).propagated_events =
          alookup k s.propagated_events from
          alookup_append_ne (fun hc => hkE hc.symm) _ _]
        exact hx

theorem cleanup_listener_applyPropagate {w : World} {A : ObjId} {E : String}
    {T : ObjId} (hT : hasModel w T = true) (hTA : T ≠ A)
    (hfirst : T ∉ directPropagationTargets (getObj w A) none) :
    Handler.cleanup A T ∈
      getListeners (getObj (applyPropagate w A E T) T) ("eventmodelcleanup") := by
  unfold applyPropagate
  have hcond : T ∉ directPropagationTargets (propKeyEnsure (getObj w A) E) none :=
    fun hc => hfirst ((mem_dPT_none_propKeyEnsure _ _ _).1 hc)
  simp only [if_neg hcond]
  rw [getObj_setObj_ne _ hTA]
  rw [getObj_setObj_self _ (by rw [hasModel_setObj]; exact hT)]
  exact mem_getListeners_addEventListener _ _ _

theorem propagateEventTo_ok_inv {fuel : Nat} {w : World} {A : ObjId} {E : String}
    {T : ObjId} {w' : World} (h : propagateEventTo fuel w A E T = Except.ok w') :
    hasModel w T = true ∧ A ≠ w.root ∧
      A ∉ allPropagationTargets fuel w T (some E) ∧ w' = applyPropagate w A E T := by
  unfold propagateEventTo at h
  by_cases h1 : hasModel w T = false
  · rw [if_pos h1] at h; cases h
  · rw [if_neg h1] at h
    by_cases h2 : A = w.root ∨ A ∈ allPropagationTargets fuel w T (some E)
    · rw [if_pos h2] at h; cases h
    · rw [if_neg h2] at h
      push_neg at h2
      refine ⟨by simpa using h1, h2.1, h2.2, ?_⟩
      injection h with h3
      exact h3.symm

theorem propagateEventTo_ok_of {fuel : Nat} {w : World} {A : ObjId} {E : String}
    {T : ObjId} (h1 : hasModel w T = true) (h2 : A ≠ w.root)
    (h3 : A ∉ allPropagationTargets fuel w T (some E)) :
    propagateEventTo fuel w A E T = Except.ok (applyPropagate w A E T) := by
  unfold propagateEventTo
  rw [if_neg (by simp [h1]), if_neg (by push_neg; exact ⟨h2, h3⟩)]

theorem propagateEventTo_cycle_of {fuel : Nat} {w : World} {A : ObjId} {E : String}
    {T : ObjId} (h1 : hasModel w T = true)
    (h2 : A = w.root ∨ A ∈ allPropagationTargets fuel w T (some E)) :
    propagateEventTo fuel w A E T = Except.error EventError.cycle := by
  unfold propagateEventTo
  rw [if_neg (by simp [h1]), if_pos h2]

/-- Recording an edge under `E` leaves the direct targets of every object
for any other event name unchanged (also for `"*"` queries, as long as the
edge itself is not a `"*"` edge). -/
theorem dPT_some_applyPropagate_other_event {w : World} {A : ObjId} {E : String}
    {T : ObjId} (hA : hasModel w A = true) (hTA : T ≠ A) {k : String}
    (hk : k ≠ E) (hw : ("*" : String) ≠ E) (o : ObjId) :
    directPropagationTargets (getObj (applyPropagate w A E T) o) (some k) =
      directPropagationTargets (getObj w o) (some k) := by
  by_cases hoA : o = A
  · subst hoA
    apply directPropagationTargets_some_congr_lookup
    · rw [alookup_prop_applyPropagate_A hA hTA, if_neg hk]
    · rw [alookup_prop_applyPropagate_A hA hTA, if_neg hw]
  · by_cases hoT : o = T
    · subst hoT
      exact directPropagationTargets_congr (prop_applyPropagate_T E hTA) _
    · rw [getObj_applyPropagate_ne E hoA hoT]

/-! ### Dispatch -/

theorem foldl_runHandler_user {ctx : ObjId} :
    ∀ {l : List Handler}, (∀ h ∈ l, Handler.isUser h = true) →
      ∀ (w : World), List.foldl (fun acc h => runHandler acc ctx h) w l = w := by
  intro l
  induction l with
  | nil => intro _ w; rfl
  | cons a rest ih =>
    intro hl w
    have ha : Handler.isUser a = true := hl a (List.mem_cons_self _ _)
    have hrun : runHandler w ctx a = w := by
      cases a with
      | user n => rfl
      | cleanup s t => simp [Handler.isUser] at ha
    simp only [List.foldl_cons, hrun]
    exact ih (fun h hh => hl h (List.mem_cons_of_mem _ hh)) w

theorem pureWorld_getListeners {w : World} (hp : pureWorld w = true) (o : ObjId)
    (e : String) : ∀ h ∈ getListeners (getObj w o) e, Handler.isUser h = true := by
  intro h hh
  unfold getListeners getObj at hh
  cases ho : alookup o w.objs with
  | none => rw [ho] at hh; simp [emptyState, alookup] at hh
  | some s =>
    rw [ho] at hh
    simp only [Option.getD_some] at hh
    have hmem := alookup_mem ho
    unfold pureWorld at hp
    rw [List.all_eq_true] at hp
    have hs := hp _ hmem
    simp only at hs
    rw [List.all_eq_true] at hs
    cases he : alookup e s.event_listeners with
    | none => rw [he] at hh; simp at hh
    | some lst =>
      rw [he] at hh
      simp only [Option.getD_some] at hh
      have hl := hs _ (alookup_mem he)
      simp only at hl
      rw [List.all_eq_true] at hl
      exact hl _ hh

theorem foldl_preserve {σ α : Type} (P : σ → Prop) (f : σ → α → σ)
    (hf : ∀ s a, P s → P (f s a)) :
    ∀ (l : List α) (s : σ), P s → P (l.foldl f s) := by
  intro l
  induction l with
  | nil => intro s hs; exact hs
  | cons a rest ih =>
    intro s hs
    exact ih _ (hf s a hs)

/-- `B` does not appear in any of `A`'s target lists. -/
def absentTargets (w : World) (A B : ObjId) : Prop :=
  ∀ k : String, B ∉ (alookup k (getObj w A).propagated_events).getD []

theorem alookup_stop (s : ObjState) (other : ObjId) (k : String) :
    alookup k (stopPropagatingTo s other).propagated_events =
      (alookup k s.propagated_events).map
        (fun l => l.filter (fun target => target ≠ other)) := by
  unfold stopPropagatingTo
  exact alookup_map_snd _ k s.propagated_events

theorem absent_of_stop {w : World} {A B : ObjId} (w' : World)
    (h : getObj w' A = stopPropagatingTo (getObj w A) B) :
    absentTargets w' A B := by
  intro k
  rw [h, alookup_stop]
  cases hk : alookup k (getObj w A).propagated_events with
  | none => simp
  | some l => simp

theorem absent_of_not_hasModel {w : World} {A : ObjId} (B : ObjId)
    (h : hasModel w A = false) : absentTargets w A B := by
  intro k
  unfold getObj
  unfold hasModel at h
  have hnone : alookup A w.objs = none :=
    Option.not_isSome_iff_eq_none.1 (by simp [h])
  rw [hnone]
  simp [emptyState, alookup]

theorem absent_preserved_stop {s : ObjState} {B T : ObjId}
    (h : ∀ k, B ∉ (alookup k s.propagated_events).getD []) :
    ∀ k, B ∉ (alookup k (stopPropagatingTo s T).propagated_events).getD [] := by
  intro k
  rw [alookup_stop]
  cases hk : alookup k s.propagated_events with
  | none => simp
  | some l =>
    have hB := h k
    rw [hk] at hB
    simp only [Option.getD_some] at hB
    show B ∉ l.filter (fun target => target ≠ T)
    intro hmem
    exact hB (List.mem_filter.1 hmem).1

theorem absent_preserved_runHandler {w : World} {A B : ObjId} (ctx : ObjId)
    (h : Handler) (habs : absentTargets w A B) :
    absentTargets (runHandler w ctx h) A B := by
  cases h with
  | user n => exact habs
  | cleanup src tgt =>
    show absentTargets
      (if ctx = tgt then setObj w src (stopPropagatingTo (getObj w src) tgt) else w)
      A B
    by_cases hc : ctx = tgt
    · rw [if_pos hc]
      by_cases hsrc : src = A
      · subst hsrc
        by_cases hm : hasModel w src = true
        · intro k
          rw [getObj_setObj_self _ hm]
          exact absent_preserved_stop habs k
        · rw [setObj_noop _ (by simpa using hm)]
          exact habs
      · intro k
        rw [getObj_setObj_ne _ (fun hc' : A = src => hsrc hc'.symm)]
        exact habs k
    · rw [if_neg hc]
      exact habs

theorem absent_established_foldl {A B ctx : ObjId} (hctx : ctx = B) :
    ∀ (l : List Handler) (w : World), Handler.cleanup A B ∈ l →
      absentTargets (List.foldl (fun acc h => runHandler acc ctx h) w l) A B := by
  intro l
  induction l with
  | nil => intro w hmem; cases hmem
  | cons a rest ih =>
    intro w hmem
    rcases List.mem_cons.1 hmem with rfl | hmem'
    · simp only [List.foldl_cons]
      apply foldl_preserve (fun acc => absentTargets acc A B)
      · intro s hh hs
        exact absent_preserved_runHandler _ _ hs
      · have hrw : runHandler w ctx (Handler.cleanup A B) =
            setObj w A (stopPropagatingTo (getObj w A) B) := by
          show (if ctx = B then setObj w A (stopPropagatingTo (getObj w A) B) else w)
            = _
          rw [if_pos hctx]
        rw [hrw]
        by_cases hm : hasModel w A = true
        · exact absent_of_stop _ (getObj_setObj_self _ hm)
        · rw [setObj_noop _ (by simpa using hm)]
          exact absent_of_not_hasModel B (by simpa using hm)
    · simp only [List.foldl_cons]
      exact ih _ hmem'

theorem absent_preserved_trigger {A B : ObjId} :
    ∀ (fuel : Nat) (w : World) (o ctx : ObjId) (e : String) (a : List JSVal),
      absentTargets w A B → absentTargets (triggerEvent fuel w o ctx e a).1 A B := by
  intro fuel
  induction fuel with
  | zero => intro w o ctx e a h; exact h
  | succ f ih =>
    intro w o ctx e a h
    rw [triggerEvent_succ]
    simp only [triggerBody]
    have h2 : absentTargets
        (List.foldl (fun acc h => runHandler acc ctx h)
          (List.foldl (fun acc h => runHandler acc ctx h) w
            (getListeners (getObj w o) e))
          (getListeners (getObj w o) ("*"))) A B :=
      foldl_preserve (fun acc => absentTargets acc A B) _
        (fun s hh hs => absent_preserved_runHandler _ _ hs) _ _
        (foldl_preserve (fun acc => absentTargets acc A B) _
          (fun s hh hs => absent_preserved_runHandler _ _ hs) _ _ h)
    have h3 := foldl_preserve
      (fun acc : World × List TraceEntry => absentTargets acc.1 A B)
      (fun acc other =>
        ((triggerEvent f acc.1 other ctx e a).1,
          acc.2 ++ (triggerEvent f acc.1 other ctx e a).2))
      (fun s x hs => ih _ _ _ _ _ hs)
      (directPropagationTargets (getObj w o) (some e))
      (⟨List.foldl (fun acc h => runHandler acc ctx h)
          (List.foldl (fun acc h => runHandler acc ctx h) w
            (getListeners (getObj w o) e))
          (getListeners (getObj w o) ("*")), ([] : List TraceEntry)⟩) h2
    by_cases hc : directPropagationTargets (getObj w o) (some e) = [] ∧ o ≠ w.root
    · rw [if_pos hc]
      exact ih _ _ _ _ _ h3
    · rw [if_neg hc]
      exact h3

/-- Trace of a dispatch with no direct targets on a non-root object: own
listeners, then the root-node fallback (C4's shape). -/
theorem trigger_trace_no_targets {f : Nat} {w : World} {o ctx : ObjId} {E : String}
    {X : List JSVal} (hpure : pureWorld w = true)
    (ht : directPropagationTargets (getObj w o) (some E) = [])
    (ho : o ≠ w.root) :
    triggerEvent (f + 1) w o ctx E X =
      ((triggerEvent f w w.root ctx E X).1,
        TraceEntry.dispatch o ctx E X ::
          ((getListeners (getObj w o) E).map (fun h => TraceEntry.invoke h ctx X) ++
            ((getListeners (getObj w o) ("*")).map
              (fun h => TraceEntry.invoke h ctx (JSVal.str E :: X)) ++
              (triggerEvent f w w.root ctx E X).2))) := by
  rw [triggerEvent_succ]
  simp only [triggerBody, ht, List.foldl_nil]
  rw [foldl_runHandler_user (pureWorld_getListeners hpure o E) w]
  rw [foldl_runHandler_user (pureWorld_getListeners hpure o ("*")) w]
  rw [if_pos (And.intro trivial ho)]
  simp [List.append_assoc]

/-- Trace of a dispatch with no direct targets on the root node itself:
own listeners only, no fallback. -/
theorem trigger_trace_root {f : Nat} {w : World} {ctx : ObjId} {E : String}
    {X : List JSVal} (hpure : pureWorld w = true)
    (ht : directPropagationTargets (getObj w w.root) (some E) = []) :
    triggerEvent (f + 1) w w.root ctx E X =
      (w, TraceEntry.dispatch w.root ctx E X ::
        ((getListeners (getObj w w.root) E).map (fun h => TraceEntry.invoke h ctx X) ++
          (getListeners (getObj w w.root) ("*")).map
            (fun h => TraceEntry.invoke h ctx (JSVal.str E :: X)))) := by
  rw [triggerEvent_succ]
  simp only [triggerBody, ht, List.foldl_nil]
  rw [foldl_runHandler_user (pureWorld_getListeners hpure w.root E) w]
  rw [foldl_runHandler_user (pureWorld_getListeners hpure w.root ("*")) w]
  rw [if_neg (fun hc => hc.2 rfl)]
  simp

/-- Trace of a dispatch with exactly one direct target: own listeners,
then the target's dispatch, no fallback. -/
theorem trigger_trace_single_target {f : Nat} {w : World} {o t ctx : ObjId}
    {E : String} {X : List JSVal} (hpure : pureWorld w = true)
    (ht : directPropagationTargets (getObj w o) (some E) = [t]) :
    triggerEvent (f + 1) w o ctx E X =
      ((triggerEvent f w t ctx E X).1,
        TraceEntry.dispatch o ctx E X ::
          ((getListeners (getObj w o) E).map (fun h => TraceEntry.invoke h ctx X) ++
            ((getListeners (getObj w o) ("*")).map
              (fun h => TraceEntry.invoke h ctx (JSVal.str E :: X)) ++
              (triggerEvent f w t ctx E X).2))) := by
  rw [triggerEvent_succ]
  simp only [triggerBody, ht, List.foldl_cons, List.foldl_nil]
  rw [foldl_runHandler_user (pureWorld_getListeners hpure o E) w]
  rw [foldl_runHandler_user (pureWorld_getListeners hpure o ("*")) w]
  rw [if_neg (fun hc => List.cons_ne_nil t [] hc.1)]
  simp [List.append_assoc]

/-- Marker for counting dispatches on a given object. -/
def TraceEntry.isDispatchOn (r : ObjId) : TraceEntry → Bool
  | TraceEntry.dispatch o _ _ _ => o == r
  | TraceEntry.invoke _ _ _ => false

theorem countP_map_invoke (r ctx : ObjId) (a : List JSVal) :
    ∀ (l : List Handler),
      List.countP (TraceEntry.isDispatchOn r)
        (l.map (fun h => TraceEntry.invoke h ctx a)) = 0 := by
  intro l
  induction l with
  | nil => rfl
  | cons h rest ih =>
    simp [List.countP_cons, TraceEntry.isDispatchOn, ih]

theorem propKeyEnsure_of_isSome {s : ObjState} {E : String}
    (h : (alookup E s.propagated_events).isSome = true) :
    propKeyEnsure s E = s := by
  cases ho : alookup E s.propagated_events with
  | none => rw [ho] at h; simp at h
  | some v => simp [propKeyEnsure, ho]

theorem propPush_of_mem {s : ObjState} {E : String} {T : ObjId}
    (h : T ∈ (alookup E s.propagated_events).getD []) : propPush s E T = s := by
  unfold propPush
  rw [if_pos h]

/-! ### Claims -/

/-- C1: the code accepts self-propagation.  Evaluating `propagateEventTo`
at the failing input — a fresh non-root object registering itself as a
propagation target — returns success (no CycleError is raised) and the
self-edge is recorded in the registry, contradicting the claim that the
call always fails with a CycleError. -/
theorem c1_self_propagation_accepted :
    exceptIsOk (propagateEventTo 3 twoObjWorld 1 ("e") 1) = true ∧
      1 ∈ directPropagationTargets
        (getObj (exceptGetD (propagateEventTo 3 twoObjWorld 1 ("e") 1) twoObjWorld) 1)
        (some ("e")) := by
  decide

/-- C3 counterexample: registering the process-wide root node as a
propagation target from an ordinary object is accepted, not rejected with
a CycleError. -/
theorem c3_counterexample_root_target_accepted :
    exceptIsOk (propagateEventTo 3 twoObjWorld 1 ("load") 0) = true := by
  decide

/-- C3 (amended): the root node as *source* is always rejected with a
CycleError (whenever the target carries the event model), but the root
node as *target* is accepted: any non-root caller succeeds in registering
the root as a propagation target whenever the root has no outgoing edges
for the event name — which is invariantly the case, since the root can
never acquire outgoing edges. -/
theorem c3_amended_root_edges :
    (∀ (fuel : Nat) (w : World) (E : String) (X : ObjId), hasModel w X = true →
      propagateEventTo fuel w w.root E X = Except.error EventError.cycle) ∧
    (∀ (fuel : Nat) (w : World) (A : ObjId) (E : String), A ≠ w.root →
      hasModel w w.root = true →
      directPropagationTargets (getObj w w.root) (some E) = [] →
      exceptIsOk (propagateEventTo fuel w A E w.root) = true) := by
  constructor
  · intro fuel w E X hX
    exact propagateEventTo_cycle_of hX (Or.inl rfl)
  · intro fuel w A E hA hroot hdpt
    rw [propagateEventTo_ok_of hroot hA (by
      rw [allPropagationTargets_nil_of_direct_nil hdpt fuel]
      exact List.not_mem_nil _)]
    rfl

theorem c3_amended_root_edges_witness :
    propagateEventTo 2 twoObjWorld 0 ("load") 1 = Except.error EventError.cycle ∧
      exceptIsOk (propagateEventTo 2 twoObjWorld 1 ("load") 0) = true := by
  constructor
  · exact c3_amended_root_edges.1 2 twoObjWorld ("load") 1 (by decide)
  · exact c3_amended_root_edges.2 2 twoObjWorld 1 ("load") (by decide) (by decide)
      (by decide)

/-- C2 counterexample: A propagates "e1" to B; the reverse call
B.propagateEventTo("e2", A) with the distinct literal name "e2" is then
accepted, not rejected with a CycleError. -/
theorem c2_counterexample_distinct_names_accepted :
    exceptIsOk (propagateEventTo 3 threeObjWorld 1 ("e1") 2) = true ∧
      exceptIsOk (propagateEventTo 3
        (exceptGetD (propagateEventTo 3 threeObjWorld 1 ("e1") 2) threeObjWorld)
        2 ("e2") 1) = true := by
  decide

/-- C2 (amended): the cycle check is scoped to the event name being
registered.  The second call B.propagateEventTo(e2, A) fails with a
CycleError exactly when B is already among A's transitive targets for e2:
if the first edge A → B was registered under `"*"` the second call fails
for every e2; if it was registered under a literal name e1 with
e1 ∉ \x7be2, "*"\x7d and B was not otherwise reachable for e2, the second call
succeeds even though the event names differ. -/
theorem c2_amended_name_scoped_cycle_check :
    (∀ (f g : Nat) (w w1 : World) (A B : ObjId) (e2 : String), A ≠ B →
      hasModel w A = true →
      propagateEventTo f w A ("*") B = Except.ok w1 →
      propagateEventTo (g + 1) w1 B e2 A = Except.error EventError.cycle) ∧
    (∀ (f g : Nat) (w w1 : World) (A B : ObjId) (e1 e2 : String), e1 ≠ ("*") →
      e2 ≠ e1 → A ≠ B → hasModel w A = true → B ≠ w.root →
      B ∉ allPropagationTargets g w A (some e2) →
      propagateEventTo f w A e1 B = Except.ok w1 →
      exceptIsOk (propagateEventTo g w1 B e2 A) = true) := by
  constructor
  · intro f g w w1 A B e2 hAB hA hok
    obtain ⟨hB, hAr, hnc, rfl⟩ := propagateEventTo_ok_inv hok
    have hmem : B ∈ (alookup ("*")
        (getObj (applyPropagate w A ("*") B) A).propagated_events).getD [] := by
      rw [alookup_prop_applyPropagate_A hA (fun hc => hAB hc.symm), if_pos rfl]
      exact mem_pushUnique.2 (Or.inr rfl)
    exact propagateEventTo_cycle_of (by rw [hasModel_applyPropagate]; exact hA)
      (Or.inr (mem_allPropagationTargets_succ.2
        (Or.inl (mem_directPropagationTargets_some.2 (Or.inr hmem)))))
  · intro f g w w1 A B e1 e2 he1 he2 hAB hA hBr hnotc hok
    obtain ⟨hBmod, hAr, hnc, rfl⟩ := propagateEventTo_ok_inv hok
    have hsame := dPT_some_applyPropagate_other_event hA (fun hc => hAB hc.symm)
      he2 (fun hc => he1 hc.symm)
    rw [propagateEventTo_ok_of
      (by rw [hasModel_applyPropagate]; exact hA)
      (by rw [root_applyPropagate]; exact hBr)
      (by rw [allPropagationTargets_congr hsame g A]; exact hnotc)]
    rfl

theorem c2_amended_name_scoped_cycle_check_witness :
    propagateEventTo 3 (applyPropagate threeObjWorld 1 ("*") 2) 2 ("e2") 1 =
      Except.error EventError.cycle ∧
    exceptIsOk (propagateEventTo 3 (applyPropagate threeObjWorld 1 ("e1") 2)
      2 ("e2") 1) = true := by
  constructor
  · exact c2_amended_name_scoped_cycle_check.1 3 2 threeObjWorld
      (applyPropagate threeObjWorld 1 ("*") 2) 1 2 ("e2") (by decide) (by decide) rfl
  · exact c2_amended_name_scoped_cycle_check.2 3 3 threeObjWorld
      (applyPropagate threeObjWorld 1 ("e1") 2) 1 2 ("e1") ("e2") (by decide)
      (by decide) (by decide) (by decide) (by decide) (by decide) rfl

/-- C8 counterexample: a self-edge first call (erroneously, see C1)
succeeds, and then the identical second call is not a state-preserving
success: the cycle check now sees the self-edge and rejects the call (the
unfueled original recurses forever over the self-loop instead). -/
theorem c8_counterexample_self_edge :
    exceptIsOk (propagateEventTo 3 twoObjWorld 1 ("e") 1) = true ∧
      propagateEventTo 3
        (exceptGetD (propagateEventTo 3 twoObjWorld 1 ("e") 1) twoObjWorld)
        1 ("e") 1 = Except.error EventError.cycle :=
  ⟨rfl, rfl⟩

/-- C8 (amended): `propagateEventTo` is idempotent per edge for any target
distinct from the source: after a successful call recording the edge
`(E, T)`, repeating the identical call succeeds and returns the world
unchanged — no duplicate target entry, no second cleanup listener.  (For
T = source, the first call wrongly succeeds and the repeat is not a no-op;
see the counterexample.) -/
theorem c8_amended_idempotent (fuel : Nat) (w w1 : World) (A : ObjId) (E : String)
    (T : ObjId) (hAT : A ≠ T) (hA : hasModel w A = true)
    (hok : propagateEventTo fuel w A E T = Except.ok w1) :
    propagateEventTo fuel w1 A E T = Except.ok w1 := by
  obtain ⟨hT, hAr, hnc, rfl⟩ := propagateEventTo_ok_inv hok
  have hTA : T ≠ A := fun hc => hAT hc.symm
  have hlook : alookup E (getObj (applyPropagate w A E T) A).propagated_events =
      some (pushUnique ((alookup E (getObj w A).propagated_events).getD []) T) := by
    rw [alookup_prop_applyPropagate_A hA hTA, if_pos rfl]
  have hmemT : T ∈ (alookup E
      (getObj (applyPropagate w A E T) A).propagated_events).getD [] := by
    rw [hlook]
    exact mem_pushUnique.2 (Or.inr rfl)
  have hkeys : E ∈ (getObj (applyPropagate w A E T) A).propagated_events.map
      Prod.fst :=
    mem_keys_of_alookup_isSome (by rw [hlook]; rfl)
  have hdirnone : T ∈ directPropagationTargets
      (getObj (applyPropagate w A E T) A) none :=
    mem_directPropagationTargets_none.2 ⟨E, hkeys, hmemT⟩
  have hAmod1 : hasModel (applyPropagate w A E T) A = true := by
    rw [hasModel_applyPropagate]; exact hA
  have H1 : ∀ o, o ≠ A →
      directPropagationTargets (getObj (applyPropagate w A E T) o) (some E) =
        directPropagationTargets (getObj w o) (some E) := by
    intro o ho
    by_cases hoT : o = T
    · subst hoT
      exact directPropagationTargets_congr (prop_applyPropagate_T E hTA) _
    · rw [getObj_applyPropagate_ne E ho hoT]
  have H2 : ∀ x, x ∈ directPropagationTargets
      (getObj (applyPropagate w A E T) A) (some E) →
        x ∈ directPropagationTargets (getObj w A) (some E) ∨ x = T := by
    intro x hx
    rcases mem_directPropagationTargets_some.1 hx with hx | hx
    · rw [hlook] at hx
      simp only [Option.getD_some] at hx
      rcases mem_pushUnique.1 hx with hx | hx
      · exact Or.inl (mem_directPropagationTargets_some.2 (Or.inl hx))
      · exact Or.inr hx
    · by_cases hwE : ("*" : String) = E
      · rw [alookup_prop_applyPropagate_A hA hTA, if_pos hwE] at hx
        simp only [Option.getD_some] at hx
        rcases mem_pushUnique.1 hx with hx | hx
        · exact Or.inl (mem_directPropagationTargets_some.2 (Or.inl hx))
        · exact Or.inr hx
      · rw [alookup_prop_applyPropagate_A hA hTA, if_neg hwE] at hx
        exact Or.inl (mem_directPropagationTargets_some.2 (Or.inr hx))
  have hnc' : A ∉ allPropagationTargets fuel (applyPropagate w A E T) T (some E) :=
    fun hcon =>
      hnc (allPropagationTargets_new_edge hAT H1 H2 hnc fuel le_rfl T hcon)
  rw [propagateEventTo_ok_of (by rw [hasModel_applyPropagate]; exact hT)
    (by rw [root_applyPropagate]; exact hAr) hnc']
  have hfinal : ∀ W : World,
      alookup E (getObj W A).propagated_events =
        some (pushUnique ((alookup E (getObj w A).propagated_events).getD []) T) →
      T ∈ directPropagationTargets (getObj W A) none →
      hasModel W A = true →
      applyPropagate W A E T = W := by
    intro W hlookW hdirW hmodW
    simp only [applyPropagate]
    rw [propKeyEnsure_of_isSome (by rw [hlookW]; rfl)]
    rw [setObj_getObj_self hmodW]
    rw [if_pos hdirW]
    rw [propPush_of_mem (by rw [hlookW]; exact mem_pushUnique.2 (Or.inr rfl))]
    rw [setObj_getObj_self hmodW]
  rw [hfinal (applyPropagate w A E T) hlook hdirnone hAmod1]

theorem c8_amended_idempotent_witness :
    propagateEventTo 3 (applyPropagate threeObjWorld 1 ("e") 2) 1 ("e") 2 =
      Except.ok (applyPropagate threeObjWorld 1 ("e") 2) :=
  c8_amended_idempotent 3 threeObjWorld (applyPropagate threeObjWorld 1 ("e") 2)
    1 ("e") 2 (by decide) (by decide) rfl

theorem filter_ne_idem (T : ObjId) : ∀ (l : List ObjId),
    (l.filter (fun target => target ≠ T)).filter (fun target => target ≠ T) =
      l.filter (fun target => target ≠ T) := by
  intro l
  induction l with
  | nil => rfl
  | cons a rest ih =>
    by_cases ha : a = T
    · simp [List.filter_cons, ha, ih]
    · simp [List.filter_cons, ha, ih]

theorem map_congr_fun {α β : Type} {f g : α → β} :
    ∀ {l : List α}, (∀ x ∈ l, f x = g x) → l.map f = l.map g := by
  intro l
  induction l with
  | nil => intro _; rfl
  | cons a rest ih =>
    intro h
    simp only [List.map_cons]
    rw [h a (List.mem_cons_self _ _),
      ih (fun x hx => h x (List.mem_cons_of_mem _ hx))]

/-- `stopPropagatingTo` is idempotent: filtering a target out twice is the
same as filtering it once. -/
theorem stopPropagatingTo_idem (s : ObjState) (T : ObjId) :
    stopPropagatingTo (stopPropagatingTo s T) T = stopPropagatingTo s T := by
  unfold stopPropagatingTo
  simp only [List.map_map]
  congr 1
  apply map_congr_fun
  intro p _
  simp only [Function.comp]
  rw [filter_ne_idem]

/-- C9: after A's first propagation edge to B is recorded, triggering the
reserved "eventmodelcleanup" event directly on B runs the cleanup listener
registered by the propagate call, which removes B from every one of A's
target lists — so A no longer has any propagation edge to B; and
`stopPropagatingTo` is idempotent (error-free no-op to repeat).  The
closed third conjunct checks, on the minimal world, that a subsequent
trigger from A never dispatches on B. -/
theorem c9_cleanup_removes_edges (f g : Nat) (w w1 : World) (A B : ObjId)
    (E : String) (hAB : A ≠ B)
    (hfirst : B ∉ directPropagationTargets (getObj w A) none)
    (hok : propagateEventTo f w A E B = Except.ok w1) :
    (∀ e? : Option String,
      B ∉ directPropagationTargets
        (getObj ((triggerEvent (g + 1) w1 B B ("eventmodelcleanup") []).1) A) e?) ∧
    (∀ (s : ObjState) (T : ObjId),
      stopPropagatingTo (stopPropagatingTo s T) T = stopPropagatingTo s T) ∧
    ((triggerEvent 4 ((triggerEvent 4 (applyPropagate threeObjWorld 1 ("e") 2)
        2 2 ("eventmodelcleanup") []).1) 1 1 ("x") []).2.all
      (fun t => !(TraceEntry.isDispatchOn 2 t)) = true) := by
  obtain ⟨hBmod, hAr, hnc, rfl⟩ := propagateEventTo_ok_inv hok
  have hTA : B ≠ A := fun hc => hAB hc.symm
  have hcl : Handler.cleanup A B ∈
      getListeners (getObj (applyPropagate w A E B) B) ("eventmodelcleanup") :=
    cleanup_listener_applyPropagate hBmod hTA hfirst
  refine ⟨?_, fun s T => stopPropagatingTo_idem s T, by decide⟩
  have habs1 : absentTargets
      (List.foldl (fun acc h => runHandler acc B h) (applyPropagate w A E B)
        (getListeners (getObj (applyPropagate w A E B) B) ("eventmodelcleanup")))
      A B :=
    absent_established_foldl rfl _ _ hcl
  have habs2 := foldl_preserve (fun acc : World => absentTargets acc A B)
    (fun acc h => runHandler acc B h)
    (fun s hh hs => absent_preserved_runHandler _ _ hs)
    (getListeners (getObj (applyPropagate w A E B) B) ("*")) _ habs1
  have habs3 := foldl_preserve
    (fun acc : World × List TraceEntry => absentTargets acc.1 A B)
    (fun acc other =>
      ((triggerEvent g acc.1 other B ("eventmodelcleanup") []).1,
        acc.2 ++ (triggerEvent g acc.1 other B ("eventmodelcleanup") []).2))
    (fun s x hs => absent_preserved_trigger _ _ _ _ _ _ hs)
    (directPropagationTargets (getObj (applyPropagate w A E B) B)
      (some ("eventmodelcleanup")))
    (⟨List.foldl (fun acc h => runHandler acc B h)
        (List.foldl (fun acc h => runHandler acc B h) (applyPropagate w A E B)
          (getListeners (getObj (applyPropagate w A E B) B) ("eventmodelcleanup")))
        (getListeners (getObj (applyPropagate w A E B) B) ("*")),
      ([] : List TraceEntry)⟩) habs2
  have habsfin : absentTargets
      ((triggerEvent (g + 1) (applyPropagate w A E B) B B
        ("eventmodelcleanup") []).1) A B := by
    rw [triggerEvent_succ]
    simp only [triggerBody]
    by_cases hc : directPropagationTargets (getObj (applyPropagate w A E B) B)
        (some ("eventmodelcleanup")) = [] ∧ B ≠ (applyPropagate w A E B).root
    · rw [if_pos hc]
      exact absent_preserved_trigger _ _ _ _ _ _ habs3
    · rw [if_neg hc]
      exact habs3
  intro e?
  cases e? with
  | some e =>
    intro hmem
    rcases mem_directPropagationTargets_some.1 hmem with hm | hm
    · exact habsfin e hm
    · exact habsfin ("*") hm
  | none =>
    intro hmem
    obtain ⟨k, hk, hm⟩ := mem_directPropagationTargets_none.1 hmem
    exact habsfin k hm

theorem c9_cleanup_removes_edges_witness :
    (∀ e? : Option String,
      2 ∉ directPropagationTargets
        (getObj ((triggerEvent 4 (applyPropagate threeObjWorld 1 ("e") 2) 2 2
          ("eventmodelcleanup") []).1) 1) e?) ∧
    (∀ (s : ObjState) (T : ObjId),
      stopPropagatingTo (stopPropagatingTo s T) T = stopPropagatingTo s T) ∧
    ((triggerEvent 4 ((triggerEvent 4 (applyPropagate threeObjWorld 1 ("e") 2)
        2 2 ("eventmodelcleanup") []).1) 1 1 ("x") []).2.all
      (fun t => !(TraceEntry.isDispatchOn 2 t)) = true) :=
  c9_cleanup_removes_edges 3 3 threeObjWorld (applyPropagate threeObjWorld 1 ("e") 2)
    1 2 ("e") (by decide) (by decide) rfl

/-- Root (0) and one object (1), each with one "load" listener. -/
def c4World : World :=
  ⟨0, [(0, ⟨[(("load"), [Handler.user 7])], []⟩),
       (1, ⟨[(("load"), [Handler.user 3])], []⟩)]⟩

/-- Root (0), an object (1) propagating "go" to 2, and a sink (2). -/
def c5World : World :=
  ⟨0, [(0, emptyState), (1, ⟨[], [(("go"), [2])]⟩), (2, emptyState)]⟩

/-- Root (0) and a chain 1 → 2 → 3 for "go", each with one listener. -/
def c6World : World :=
  ⟨0, [(0, emptyState),
       (1, ⟨[(("go"), [Handler.user 1])], [(("go"), [2])]⟩),
       (2, ⟨[(("go"), [Handler.user 2])], [(("go"), [3])]⟩),
       (3, ⟨[(("go"), [Handler.user 3])], []⟩)]⟩

theorem countP_const_false {α : Type} : ∀ l : List α,
    List.countP (fun _ => false) l = 0 := by
  intro l
  induction l with
  | nil => rfl
  | cons a rest ih => simp [List.countP_cons, ih]

theorem countP_comp_invoke (r ctx : ObjId) (a : List JSVal) :
    ∀ l : List Handler,
      List.countP (TraceEntry.isDispatchOn r ∘ fun h => TraceEntry.invoke h ctx a)
        l = 0 := by
  intro l
  induction l with
  | nil => rfl
  | cons h rest ih =>
    simp [List.countP_cons, Function.comp, TraceEntry.isDispatchOn, ih]

/-- C4: when an object A ≠ root has no direct propagation target for E
(neither under the literal name nor under `"*"`), triggering E on A runs
A's own listeners and then triggers E on the root node exactly once, with
the same execution context `ctx` and the same full argument list. -/
theorem c4_root_fallback (f : Nat) (w : World) (A ctx : ObjId) (E : String)
    (X : List JSVal) (hpure : pureWorld w = true)
    (hA : directPropagationTargets (getObj w A) (some E) = [])
    (hroot : directPropagationTargets (getObj w w.root) (some E) = [])
    (hAr : A ≠ w.root) :
    (triggerEvent (f + 1 + 1) w A ctx E X).2 =
      TraceEntry.dispatch A ctx E X ::
        ((getListeners (getObj w A) E).map (fun h => TraceEntry.invoke h ctx X) ++
          ((getListeners (getObj w A) ("*")).map
            (fun h => TraceEntry.invoke h ctx (JSVal.str E :: X)) ++
            (TraceEntry.dispatch w.root ctx E X ::
              ((getListeners (getObj w w.root) E).map
                (fun h => TraceEntry.invoke h ctx X) ++
                (getListeners (getObj w w.root) ("*")).map
                  (fun h => TraceEntry.invoke h ctx (JSVal.str E :: X)))))) ∧
      List.countP (TraceEntry.isDispatchOn w.root)
        (triggerEvent (f + 1 + 1) w A ctx E X).2 = 1 := by
  have h1 := @trigger_trace_no_targets (f + 1) w A ctx E X hpure hA hAr
  have h2 := @trigger_trace_root f w ctx E X hpure hroot
  have heq : (triggerEvent (f + 1 + 1) w A ctx E X).2 =
      TraceEntry.dispatch A ctx E X ::
        ((getListeners (getObj w A) E).map (fun h => TraceEntry.invoke h ctx X) ++
          ((getListeners (getObj w A) ("*")).map
            (fun h => TraceEntry.invoke h ctx (JSVal.str E :: X)) ++
            (TraceEntry.dispatch w.root ctx E X ::
              ((getListeners (getObj w w.root) E).map
                (fun h => TraceEntry.invoke h ctx X) ++
                (getListeners (getObj w w.root) ("*")).map
                  (fun h => TraceEntry.invoke h ctx (JSVal.str E :: X)))))) := by
    rw [h1, h2]
  refine ⟨heq, ?_⟩
  rw [heq]
  have hAroot : (A == w.root) = false := by
    simp [hAr]
  simp [List.countP_cons, List.countP_append, List.countP_map,
    TraceEntry.isDispatchOn, hAroot, countP_comp_invoke]

theorem c4_root_fallback_witness :
    (triggerEvent (0 + 1 + 1) c4World 1 1 ("load") [JSVal.num 42]).2 =
      TraceEntry.dispatch 1 1 ("load") [JSVal.num 42] ::
        ((getListeners (getObj c4World 1) ("load")).map
          (fun h => TraceEntry.invoke h 1 [JSVal.num 42]) ++
          ((getListeners (getObj c4World 1) ("*")).map
            (fun h => TraceEntry.invoke h 1 (JSVal.str ("load") :: [JSVal.num 42])) ++
            (TraceEntry.dispatch c4World.root 1 ("load") [JSVal.num 42] ::
              ((getListeners (getObj c4World c4World.root) ("load")).map
                (fun h => TraceEntry.invoke h 1 [JSVal.num 42]) ++
                (getListeners (getObj c4World c4World.root) ("*")).map
                  (fun h => TraceEntry.invoke h 1
                    (JSVal.str ("load") :: [JSVal.num 42])))))) ∧
      List.countP (TraceEntry.isDispatchOn c4World.root)
        (triggerEvent (0 + 1 + 1) c4World 1 1 ("load") [JSVal.num 42]).2 = 1 :=
  c4_root_fallback 0 c4World 1 1 ("load") [JSVal.num 42] (by decide) (by decide)
    (by decide) (by decide)

/-- C5: when A has at least one direct propagation target for E, a
trigger of E on A produces exactly its own listeners followed by the
propagation to those targets — the root-node fallback branch is not taken
for that dispatch. -/
theorem c5_no_fallback_when_targets (f : Nat) (w : World) (A ctx : ObjId)
    (E : String) (X : List JSVal) (hpure : pureWorld w = true)
    (hne : directPropagationTargets (getObj w A) (some E) ≠ []) :
    (triggerEvent (f + 1) w A ctx E X).2 =
      TraceEntry.dispatch A ctx E X ::
        ((getListeners (getObj w A) E).map (fun h => TraceEntry.invoke h ctx X) ++
          ((getListeners (getObj w A) ("*")).map
            (fun h => TraceEntry.invoke h ctx (JSVal.str E :: X)) ++
            ((directPropagationTargets (getObj w A) (some E)).foldl
              (fun acc other =>
                ((triggerEvent f acc.1 other ctx E X).1,
                  acc.2 ++ (triggerEvent f acc.1 other ctx E X).2))
              (w, ([] : List TraceEntry))).2)) := by
  rw [triggerEvent_succ]
  simp only [triggerBody]
  rw [foldl_runHandler_user (pureWorld_getListeners hpure A E) w]
  rw [foldl_runHandler_user (pureWorld_getListeners hpure A ("*")) w]
  rw [if_neg (fun hc => hne hc.1)]

theorem c5_no_fallback_when_targets_witness :
    (triggerEvent (1 + 1) c5World 1 1 ("go") []).2 =
      TraceEntry.dispatch 1 1 ("go") [] ::
        ((getListeners (getObj c5World 1) ("go")).map
          (fun h => TraceEntry.invoke h 1 []) ++
          ((getListeners (getObj c5World 1) ("*")).map
            (fun h => TraceEntry.invoke h 1 (JSVal.str ("go") :: [])) ++
            ((directPropagationTargets (getObj c5World 1) (some ("go"))).foldl
              (fun acc other =>
                ((triggerEvent 1 acc.1 other 1 ("go") []).1,
                  acc.2 ++ (triggerEvent 1 acc.1 other 1 ("go") []).2))
              (c5World, ([] : List TraceEntry))).2)) :=
  c5_no_fallback_when_targets 1 c5World 1 1 ("go") [] (by decide) (by decide)

/-- C6: with A propagating E to B and B propagating E to C, triggering E
on A with arguments X dispatches E on A, then B, then C, depth first,
each object's handlers receiving exactly X (and the wildcard handlers the
event name prepended); `rest` is whatever follows C's own listeners (the
root fallback of the deepest node, if any). -/
theorem c6_chain_depth_first (f : Nat) (w : World) (A B C ctx : ObjId) (E : String)
    (X : List JSVal) (hpure : pureWorld w = true)
    (hA : directPropagationTargets (getObj w A) (some E) = [B])
    (hB : directPropagationTargets (getObj w B) (some E) = [C])
    (hC : directPropagationTargets (getObj w C) (some E) = []) :
    ∃ rest, (triggerEvent (f + 1 + 1 + 1) w A ctx E X).2 =
      TraceEntry.dispatch A ctx E X ::
        ((getListeners (getObj w A) E).map (fun h => TraceEntry.invoke h ctx X) ++
          ((getListeners (getObj w A) ("*")).map
            (fun h => TraceEntry.invoke h ctx (JSVal.str E :: X)) ++
            (TraceEntry.dispatch B ctx E X ::
              ((getListeners (getObj w B) E).map
                (fun h => TraceEntry.invoke h ctx X) ++
                ((getListeners (getObj w B) ("*")).map
                  (fun h => TraceEntry.invoke h ctx (JSVal.str E :: X)) ++
                  (TraceEntry.dispatch C ctx E X ::
                    ((getListeners (getObj w C) E).map
                      (fun h => TraceEntry.invoke h ctx X) ++
                      ((getListeners (getObj w C) ("*")).map
                        (fun h => TraceEntry.invoke h ctx (JSVal.str E :: X)) ++
                        rest)))))))) := by
  have h1 := @trigger_trace_single_target (f + 1 + 1) w A B ctx E X hpure hA
  have h2 := @trigger_trace_single_target (f + 1) w B C ctx E X hpure hB
  by_cases hCr : C = w.root
  · subst hCr
    have h3 := @trigger_trace_root f w ctx E X hpure hC
    refine ⟨[], ?_⟩
    rw [h1, h2, h3]
    simp
  · have h3 := @trigger_trace_no_targets f w C ctx E X hpure hC hCr
    refine ⟨(triggerEvent f w w.root ctx E X).2, ?_⟩
    rw [h1, h2, h3]

theorem c6_chain_depth_first_witness :
    ∃ rest, (triggerEvent (0 + 1 + 1 + 1) c6World 1 1 ("go") []).2 =
      TraceEntry.dispatch 1 1 ("go") [] ::
        ((getListeners (getObj c6World 1) ("go")).map
          (fun h => TraceEntry.invoke h 1 []) ++
          ((getListeners (getObj c6World 1) ("*")).map
            (fun h => TraceEntry.invoke h 1 (JSVal.str ("go") :: [])) ++
            (TraceEntry.dispatch 2 1 ("go") [] ::
              ((getListeners (getObj c6World 2) ("go")).map
                (fun h => TraceEntry.invoke h 1 []) ++
                ((getListeners (getObj c6World 2) ("*")).map
                  (fun h => TraceEntry.invoke h 1 (JSVal.str ("go") :: [])) ++
                  (TraceEntry.dispatch 3 1 ("go") [] ::
                    ((getListeners (getObj c6World 3) ("go")).map
                      (fun h => TraceEntry.invoke h 1 []) ++
                      ((getListeners (getObj c6World 3) ("*")).map
                        (fun h => TraceEntry.invoke h 1 (JSVal.str ("go") :: [])) ++
                        rest)))))))) :=
  c6_chain_depth_first 0 c6World 1 2 3 1 ("go") [] (by decide) (by decide)
    (by decide) (by decide)

/-- C7: on a single dispatch, the listeners registered under the literal
event name all run first, in registration order, receiving exactly the
extra arguments; then the `"*"` listeners run in their own registration
order, receiving the event name prepended; everything else (propagation,
fallback) comes after. -/
theorem c7_listener_order (f : Nat) (w : World) (A ctx : ObjId) (E : String)
    (X : List JSVal) :
    ∃ rest, (triggerEvent (f + 1) w A ctx E X).2 =
      TraceEntry.dispatch A ctx E X ::
        ((getListeners (getObj w A) E).map (fun h => TraceEntry.invoke h ctx X) ++
          ((getListeners (getObj w A) ("*")).map
            (fun h => TraceEntry.invoke h ctx (JSVal.str E :: X)) ++ rest)) := by
  rw [triggerEvent_succ]
  simp only [triggerBody]
  by_cases hc : directPropagationTargets (getObj w A) (some E) = [] ∧ A ≠ w.root
  · obtain ⟨hnil, hroot⟩ := hc
    simp only [hnil, List.foldl_nil]
    rw [if_pos (And.intro trivial hroot)]
    exact ⟨(triggerEvent f
        (List.foldl (fun acc h => runHandler acc ctx h)
          (List.foldl (fun acc h => runHandler acc ctx h) w
            (getListeners (getObj w A) E))
          (getListeners (getObj w A) ("*"))) w.root ctx E X).2,
      by simp⟩
  · rw [if_neg hc]
    exact ⟨_, rfl⟩

/-- C10: triggering the literal event name `"*"` runs each wildcard
handler twice in the same dispatch: once as the name-specific pass with
exactly the extra arguments, then again as the wildcard pass with `"*"`
prepended. -/
theorem c10_wildcard_trigger_runs_twice (f : Nat) (w : World) (A ctx : ObjId)
    (X : List JSVal) :
    ∃ rest, (triggerEvent (f + 1) w A ctx ("*") X).2 =
      TraceEntry.dispatch A ctx ("*") X ::
        ((getListeners (getObj w A) ("*")).map
          (fun h => TraceEntry.invoke h ctx X) ++
          ((getListeners (getObj w A) ("*")).map
            (fun h => TraceEntry.invoke h ctx (JSVal.str ("*") :: X)) ++ rest)) := by
  rw [triggerEvent_succ]
  simp only [triggerBody]
  by_cases hc : directPropagationTargets (getObj w A) (some ("*")) = [] ∧ A ≠ w.root
  · obtain ⟨hnil, hroot⟩ := hc
    simp only [hnil, List.foldl_nil]
    rw [if_pos (And.intro trivial hroot)]
    exact ⟨(triggerEvent f
        (List.foldl (fun acc h => runHandler acc ctx h)
          (List.foldl (fun acc h => runHandler acc ctx h) w
            (getListeners (getObj w A) ("*")))
          (getListeners (getObj w A) ("*"))) w.root ctx ("*") X).2,
      by simp⟩
  · rw [if_neg hc]
    exact ⟨_, rfl⟩
